import Mathlib

/-!
Verification of the parser cursor, metadata wrapper and AST arena of the
`wrought` compiler front-end (src/parser/mod.rs, src/ast/mod.rs,
src/ast/component.rs), as a shallow embedding in Lean.

Rust's `&mut self` methods are modelled as state-passing functions
returning a `result × state` pair; machine integers (`usize`, `u32`
entity handles) are modelled as `Nat`; fallible operations return
`Except`/`Option`.  A Rust panic (out-of-bounds indexing) is modelled
by an `Option` result being `none`.
-/

namespace Wrought

/-- A source span: `(offset, length)` over the source text
(miette's `SourceSpan`, used as `ast::Span`). -/
structure Span where
  offset : Nat
  length : Nat
deriving DecidableEq, Repr

/-- A named source text (miette's `NamedSource`: name plus contents).
The `Arc` reference counting is irrelevant to the embedded semantics. -/
structure Source where
  name : String
  text : String
deriving DecidableEq, Repr

/-- One lexer token together with its source span
(`lexer::TokenData`).  The lexer's `Token` enum is outside the core, so
the token type is a parameter with decidable equality (the cursor only
ever compares tokens with `==`). -/
structure TokenData (Token : Type) where
  token : Token
  span : Span
deriving DecidableEq, Repr

/-- The parser error taxonomy (`parser::ParserError`). -/
inductive ParserError (Token : Type) where
  | base (src : Source) (span : Span)
  | unexpectedToken (description : String) (token : Option Token)
  | endOfInput
  | notYetSupported (feature : String) (token : Token)
deriving DecidableEq, Repr

/-- The parser cursor (`parser::ParseInput`): the source text, the
immutable token sequence, and the current position. -/
structure ParseInput (Token : Type) where
  src : Source
  tokens : List (TokenData Token)
  index : Nat
deriving DecidableEq, Repr

/-- A saved cursor position (`parser::Checkpoint`). -/
structure Checkpoint where
  index : Nat
deriving DecidableEq, Repr

namespace ParseInput

variable {Token : Type} [DecidableEq Token]

/-- `ParseInput::new`. -/
def new (src : Source) (tokens : List (TokenData Token)) : ParseInput Token :=
  { src := src, tokens := tokens, index := 0 }

/-- `ParseInput::unsupported_error`.  The Rust body indexes
`self.tokens[self.index]`, which panics when the index is out of
bounds; the panic is modelled by returning `none`. -/
def unsupported_error (s : ParseInput Token) (feature : String) :
    Option (ParserError Token) :=
  match s.tokens.get? s.index with
  | some td => some (.notYetSupported feature td.token)
  | none => none

/-- `ParseInput::unexpected_token`: builds an `UnexpectedToken` error
from the token at the current position, if any (`tokens.get(index)`
never panics). -/
def unexpected_token (s : ParseInput Token) (description : String) :
    ParserError Token :=
  .unexpectedToken description ((s.tokens.get? s.index).map (·.token))

/-- `ParseInput::checkpoint`: captures the current position (takes
`&self`, so the cursor itself is untouched). -/
def checkpoint (s : ParseInput Token) : Checkpoint :=
  { index := s.index }

/-- `ParseInput::restore`: resets the position to the checkpoint's. -/
def restore (s : ParseInput Token) (cp : Checkpoint) : ParseInput Token :=
  { s with index := cp.index }

/-- `ParseInput::done`. -/
def done (s : ParseInput Token) : Bool :=
  s.tokens.length ≤ s.index

/-- `ParseInput::peek`: the token at the current position, or
`EndOfInput`; the position is not moved. -/
def peek (s : ParseInput Token) : Except (ParserError Token) (TokenData Token) :=
  match s.tokens.get? s.index with
  | some td => .ok td
  | none => .error .endOfInput

/-- `ParseInput::next`: reads the token at the current position and
increments the position — also on failure (the Rust body increments
`self.index` before testing the lookup's result). -/
def next (s : ParseInput Token) :
    Except (ParserError Token) (TokenData Token) × ParseInput Token :=
  let result := s.tokens.get? s.index
  let s' : ParseInput Token := { s with index := s.index + 1 }
  match result with
  | some td => (.ok td, s')
  | none => (.error .endOfInput, s')

/-- `ParseInput::assert_next`: consumes one token via `next` (the `?`
operator propagates `next`'s error with the position already advanced);
on a mismatch the `UnexpectedToken` error is built from the
already-advanced state. -/
def assert_next (s : ParseInput Token) (token : Token) (description : String) :
    Except (ParserError Token) Span × ParseInput Token :=
  match ParseInput.next s with
  | (.ok td, s') =>
      if td.token = token then (.ok td.span, s')
      else (.error (s'.unexpected_token description), s')
  | (.error e, s') => (.error e, s')

/-- `ParseInput::next_if`: peeks; on end of input or a non-matching
token returns `none` without moving; otherwise consumes via `next` and
returns the consumed token's span. -/
def next_if (s : ParseInput Token) (token : Token) :
    Option Span × ParseInput Token :=
  match s.peek with
  | .error _ => (none, s)
  | .ok td =>
      if td.token ≠ token then (none, s)
      else
        match ParseInput.next s with
        | (.ok td', s') => (some td'.span, s')
        | (.error _, s') => (none, s')

/-- `ParseInput::has`: `self.index + num <= self.tokens.len()`. -/
def has (s : ParseInput Token) (num : Nat) : Bool :=
  s.index + num ≤ s.tokens.length

/-- `ParseInput::slice_next`: when `has num`, returns the slice
`tokens[index..index+num]` and advances by `num`; otherwise fails with
`EndOfInput` leaving the position unchanged. -/
def slice_next (s : ParseInput Token) (num : Nat) :
    Except (ParserError Token) (List (TokenData Token)) × ParseInput Token :=
  if s.has num then
    (.ok ((s.tokens.drop s.index).take num), { s with index := s.index + num })
  else
    (.error .endOfInput, s)

end ParseInput

/-- One cursor-mutating call, for quantifying over arbitrary
interleavings of the cursor operations (`peek` takes `&mut self` in
Rust but never writes, so its state effect is the identity). -/
inductive CursorOp (Token : Type) where
  | next
  | peek
  | sliceNext (num : Nat)
  | nextIf (token : Token)
  | assertNext (token : Token) (description : String)

/-- The state effect of one cursor operation (results discarded). -/
def stepOp {Token : Type} [DecidableEq Token]
    (s : ParseInput Token) : CursorOp Token → ParseInput Token
  | .next => (ParseInput.next s).2
  | .peek => s
  | .sliceNext n => (s.slice_next n).2
  | .nextIf t => (s.next_if t).2
  | .assertNext t d => (s.assert_next t d).2

/-- Runs a sequence of cursor operations left to right. -/
def runOps {Token : Type} [DecidableEq Token]
    (s : ParseInput Token) : List (CursorOp Token) → ParseInput Token
  | [] => s
  | op :: ops => runOps (stepOp s op) ops

/-- The metadata wrapper `ast::M<T>`: a value plus its span. -/
structure M (T : Type) where
  span : Span
  value : T
deriving DecidableEq, Repr

/-- `M::new`. -/
def M.new {T : Type} (value : T) (span : Span) : M T :=
  { span := span, value := value }

/-- `M::new_range`: the merged span runs from `left.offset()` to
`right.offset() + right.len()`.  The Rust `usize` subtraction
`right_most - left_most` panics on underflow; here it is `Nat`
truncated subtraction, which agrees whenever
`left.offset ≤ right.offset + right.length`. -/
def M.new_range {T : Type} (value : T) (left right : Span) : M T :=
  let left_most := left.offset
  let right_most := right.offset + right.length
  let len := right_most - left_most
  { span := { offset := left_most, length := len }, value := value }

/-- The boxed metadata wrapper `ast::MBox<T>` (the `Box` indirection
has no semantic content in Lean). -/
structure MBox (T : Type) where
  span : Span
  value : T
deriving DecidableEq, Repr

/-- `MBox::new`. -/
def MBox.new {T : Type} (value : T) (span : Span) : MBox T :=
  { span := span, value := value }

/-- `MBox::new_range`: same span computation as `M::new_range`. -/
def MBox.new_range {T : Type} (value : T) (left right : Span) : MBox T :=
  let left_most := left.offset
  let right_most := right.offset + right.length
  let len := right_most - left_most
  { span := { offset := left_most, length := len }, value := value }

/-- Entity handles (`NameId`, `TypeId`, `StatementId`): `u32` newtypes
issued by `PrimaryMap::push` as the table's current length; modelled as
`Nat`. -/
abbrev NameId := Nat

abbrev TypeId := Nat

abbrev StatementId := Nat

/-- The AST arena (`ast::component::Component`), restricted to the
tables the claims concern: `names`, `types` and `statements`, each with
its handle-to-span side table.  A `PrimaryMap` is a list indexed by the
handle; a `HashMap` is an association list whose insert prepends (every
inserted key is fresh, so first-match lookup agrees with the map).  The
node types `ValType` and `ast::Statement` live in files outside the
supplied sources, so they are type parameters; the remaining fields
(`imports`, `globals`, `functions`, `expression_data`) are unused by
the claims and omitted. -/
structure Component (ValType Statement : Type) where
  src : Source
  types : List ValType
  type_spans : List (TypeId × Span)
  statements : List Statement
  statement_spans : List (StatementId × Span)
  names : List String
  name_spans : List (NameId × Span)

namespace Component

variable {ValType Statement : Type}

/-- `Component::new`: every table starts empty. -/
def new (src : Source) : Component ValType Statement :=
  { src := src, types := [], type_spans := [], statements := [],
    statement_spans := [], names := [], name_spans := [] }

/-- `Component::new_name`: `names.push` returns the table's length as
the fresh handle, and the span is inserted into the side table. -/
def new_name (c : Component ValType Statement) (name : String) (span : Span) :
    NameId × Component ValType Statement :=
  let id := c.names.length
  (id, { c with names := c.names ++ [name],
                name_spans := (id, span) :: c.name_spans })

/-- `Component::get_name` (`unwrap` on a missing handle modelled by
`Option`). -/
def get_name (c : Component ValType Statement) (id : NameId) : Option String :=
  c.names.get? id

/-- `Component::name_span`. -/
def name_span (c : Component ValType Statement) (id : NameId) : Option Span :=
  c.name_spans.lookup id

/-- `Component::new_type`. -/
def new_type (c : Component ValType Statement) (valtype : ValType) (span : Span) :
    TypeId × Component ValType Statement :=
  let id := c.types.length
  (id, { c with types := c.types ++ [valtype],
                type_spans := (id, span) :: c.type_spans })

/-- `Component::get_type`. -/
def get_type (c : Component ValType Statement) (id : TypeId) : Option ValType :=
  c.types.get? id

/-- `Component::type_span`. -/
def type_span (c : Component ValType Statement) (id : TypeId) : Option Span :=
  c.type_spans.lookup id

/-- `Component::new_statement`. -/
def new_statement (c : Component ValType Statement) (st : Statement) (span : Span) :
    StatementId × Component ValType Statement :=
  let id := c.statements.length
  (id, { c with statements := c.statements ++ [st],
                statement_spans := (id, span) :: c.statement_spans })

/-- `Component::get_statement`. -/
def get_statement (c : Component ValType Statement) (id : StatementId) :
    Option Statement :=
  c.statements.get? id

/-- `Component::statement_span`. -/
def statement_span (c : Component ValType Statement) (id : StatementId) :
    Option Span :=
  c.statement_spans.lookup id

end Component

/-- One allocation into the arena, for quantifying over arbitrary
allocation histories. -/
inductive AllocOp (ValType Statement : Type) where
  | name (s : String) (sp : Span)
  | typ (v : ValType) (sp : Span)
  | stmt (st : Statement) (sp : Span)

/-- The arena after one allocation (handle discarded). -/
def allocStep {V S : Type} (c : Component V S) : AllocOp V S → Component V S
  | .name s sp => (c.new_name s sp).2
  | .typ v sp => (c.new_type v sp).2
  | .stmt st sp => (c.new_statement st sp).2

/-- Runs a sequence of allocations left to right. -/
def allocRun {V S : Type} (c : Component V S) : List (AllocOp V S) → Component V S
  | [] => c
  | op :: ops => allocRun (allocStep c op) ops

/-- The handles issued by the `name` allocations of a run, in order. -/
def nameIds {V S : Type} (c : Component V S) : List (AllocOp V S) → List NameId
  | [] => []
  | .name s sp :: ops => (c.new_name s sp).1 :: nameIds (c.new_name s sp).2 ops
  | .typ v sp :: ops => nameIds (c.new_type v sp).2 ops
  | .stmt st sp :: ops => nameIds (c.new_statement st sp).2 ops

/-- The handles issued by the `typ` allocations of a run, in order. -/
def typeIds {V S : Type} (c : Component V S) : List (AllocOp V S) → List TypeId
  | [] => []
  | .name s sp :: ops => typeIds (c.new_name s sp).2 ops
  | .typ v sp :: ops => (c.new_type v sp).1 :: typeIds (c.new_type v sp).2 ops
  | .stmt st sp :: ops => typeIds (c.new_statement st sp).2 ops

/-- The handles issued by the `stmt` allocations of a run, in order. -/
def stmtIds {V S : Type} (c : Component V S) : List (AllocOp V S) → List StatementId
  | [] => []
  | .name s sp :: ops => stmtIds (c.new_name s sp).2 ops
  | .typ v sp :: ops => stmtIds (c.new_type v sp).2 ops
  | .stmt st sp :: ops => (c.new_statement st sp).1 :: stmtIds (c.new_statement st sp).2 ops

/-- How many `name` allocations a run makes. -/
def countName {V S : Type} : List (AllocOp V S) → Nat
  | [] => 0
  | .name _ _ :: ops => countName ops + 1
  | .typ _ _ :: ops => countName ops
  | .stmt _ _ :: ops => countName ops

/-- How many `typ` allocations a run makes. -/
def countType {V S : Type} : List (AllocOp V S) → Nat
  | [] => 0
  | .name _ _ :: ops => countType ops
  | .typ _ _ :: ops => countType ops + 1
  | .stmt _ _ :: ops => countType ops

/-- How many `stmt` allocations a run makes. -/
def countStmt {V S : Type} : List (AllocOp V S) → Nat
  | [] => 0
  | .name _ _ :: ops => countStmt ops
  | .typ _ _ :: ops => countStmt ops
  | .stmt _ _ :: ops => countStmt ops + 1

/-- Modelled from the spec: the module value and the module grammar
production (`ast::module::Module` and `parser::module::parse_module`
are not among the supplied sources).  The spec describes `parse_module`
as a pure function from the cursor to either a populated module or one
`ParserError`, so both are taken as parameters. -/
def parse {Token Module : Type}
    (parse_module : ParseInput Token → Except (ParserError Token) Module)
    (src : Source) (tokens : List (TokenData Token)) :
    Except (ParserError Token) Module :=
  parse_module (ParseInput.new src tokens)

/-- The cursor after `k` consecutive `next` calls (results discarded). -/
def nextIter {Token : Type} [DecidableEq Token] :
    Nat → ParseInput Token → ParseInput Token
  | 0, s => s
  | k + 1, s => (ParseInput.next (nextIter k s)).2

/-- A concrete two-token cursor used to instantiate proved facts. -/
def sample2 : ParseInput Nat :=
  { src := { name := "f", text := "g" },
    tokens := [⟨5, ⟨0, 1⟩⟩, ⟨9, ⟨1, 1⟩⟩],
    index := 0 }

theorem next_snd {Token : Type} [DecidableEq Token] (s : ParseInput Token) :
    (ParseInput.next s).2 = { s with index := s.index + 1 } := by
  unfold ParseInput.next
  cases s.tokens.get? s.index <;> rfl

theorem next_at_end {Token : Type} [DecidableEq Token] (s : ParseInput Token)
    (h : s.tokens.get? s.index = none) :
    ParseInput.next s = (.error .endOfInput, { s with index := s.index + 1 }) := by
  unfold ParseInput.next
  rw [h]

theorem assert_next_snd {Token : Type} [DecidableEq Token]
    (s : ParseInput Token) (tok : Token) (d : String) :
    (s.assert_next tok d).2 = { s with index := s.index + 1 } := by
  unfold ParseInput.assert_next ParseInput.next
  cases s.tokens.get? s.index with
  | none => rfl
  | some td => by_cases h : td.token = tok <;> simp [h]

theorem next_if_snd {Token : Type} [DecidableEq Token]
    (s : ParseInput Token) (tok : Token) :
    (s.next_if tok).2 = s ∨ (s.next_if tok).2 = { s with index := s.index + 1 } := by
  unfold ParseInput.next_if ParseInput.peek ParseInput.next
  cases s.tokens.get? s.index with
  | none => exact .inl rfl
  | some td => by_cases h : td.token = tok <;> simp [h]

theorem slice_next_snd {Token : Type} [DecidableEq Token]
    (s : ParseInput Token) (n : Nat) :
    (s.slice_next n).2 = s ∨ (s.slice_next n).2 = { s with index := s.index + n } := by
  unfold ParseInput.slice_next
  by_cases h : s.has n = true <;> simp [h]

theorem stepOp_preserves {Token : Type} [DecidableEq Token]
    (s : ParseInput Token) (op : CursorOp Token) :
    (stepOp s op).tokens = s.tokens ∧ (stepOp s op).src = s.src := by
  cases op with
  | next => rw [stepOp, next_snd]; exact ⟨rfl, rfl⟩
  | peek => exact ⟨rfl, rfl⟩
  | sliceNext n =>
      rcases slice_next_snd s n with h | h <;> rw [stepOp, h] <;> exact ⟨rfl, rfl⟩
  | nextIf t =>
      rcases next_if_snd s t with h | h <;> rw [stepOp, h] <;> exact ⟨rfl, rfl⟩
  | assertNext t d => rw [stepOp, assert_next_snd]; exact ⟨rfl, rfl⟩

theorem runOps_preserves {Token : Type} [DecidableEq Token]
    (s : ParseInput Token) (ops : List (CursorOp Token)) :
    (runOps s ops).tokens = s.tokens ∧ (runOps s ops).src = s.src := by
  induction ops generalizing s with
  | nil => exact ⟨rfl, rfl⟩
  | cons op ops ih =>
      obtain ⟨h1, h2⟩ := stepOp_preserves s op
      obtain ⟨h3, h4⟩ := ih (stepOp s op)
      exact ⟨h3.trans h1, h4.trans h2⟩

/-- C1: for every cursor state `s` and every interleaving of
`next`/`peek`/`slice_next`/`next_if`/`assert_next` calls, restoring the
checkpoint taken at `s` yields exactly the cursor `s` again (the
operations touch only the position, which `restore` resets; `checkpoint`
itself takes `&self` and leaves the cursor unchanged, which the
embedding reflects by typing it as a read-only function). -/
theorem checkpoint_restore_law {Token : Type} [DecidableEq Token]
    (s : ParseInput Token) (ops : List (CursorOp Token)) :
    (runOps s ops).restore s.checkpoint = s := by
  obtain ⟨htok, hsrc⟩ := runOps_preserves s ops
  unfold ParseInput.restore ParseInput.checkpoint
  cases s with
  | mk src tokens index => simp_all

/-- C2: merging spans `left = (o1, l1)` and `right = (o2, l2)` with
`o2 + l2 ≥ o1` via `M::new_range` or `MBox::new_range` wraps the value
unchanged with span `(o1, o2 + l2 - o1)`, which starts at the left
span's start and ends at the right span's end `o2 + l2`. -/
theorem span_merge_law {T : Type} (v : T) (o1 l1 o2 l2 : Nat)
    (h : o1 ≤ o2 + l2) :
    M.new_range v ⟨o1, l1⟩ ⟨o2, l2⟩ = ⟨⟨o1, o2 + l2 - o1⟩, v⟩ ∧
    MBox.new_range v ⟨o1, l1⟩ ⟨o2, l2⟩ = ⟨⟨o1, o2 + l2 - o1⟩, v⟩ ∧
    o1 + (o2 + l2 - o1) = o2 + l2 := by
  refine ⟨rfl, rfl, ?_⟩
  omega

/-- Witness for C2 at `v = 0`, `left = (1, 2)`, `right = (2, 3)`. -/
theorem span_merge_law_witness :
    M.new_range (0 : Nat) ⟨1, 2⟩ ⟨2, 3⟩ = ⟨⟨1, 2 + 3 - 1⟩, 0⟩ ∧
    MBox.new_range (0 : Nat) ⟨1, 2⟩ ⟨2, 3⟩ = ⟨⟨1, 2 + 3 - 1⟩, 0⟩ ∧
    1 + (2 + 3 - 1) = 2 + 3 :=
  span_merge_law 0 1 2 2 3 (by decide)

/-- C3: when a token remains, `assert_next` advances the position by
exactly one, returning the consumed token's span when it matches and an
error when it does not. -/
theorem assert_next_consumes {Token : Type} [DecidableEq Token]
    (s : ParseInput Token) (tok : Token) (d : String)
    (h : s.index < s.tokens.length) :
    (s.assert_next tok d).2.index = s.index + 1 ∧
    ∀ td, s.tokens.get? s.index = some td →
      (td.token = tok → (s.assert_next tok d).1 = .ok td.span) ∧
      (td.token ≠ tok → ∃ e, (s.assert_next tok d).1 = .error e) := by
  refine ⟨by rw [assert_next_snd], ?_⟩
  intro td hget
  unfold ParseInput.assert_next ParseInput.next
  rw [hget]
  constructor
  · intro heq; simp [heq]
  · intro hne; simp [hne]

/-- Witness for C3 on the one-token cursor `[5]` probed with the
matching token `5`. -/
theorem assert_next_consumes_witness :
    ((⟨⟨"f", "g"⟩, [⟨5, ⟨0, 1⟩⟩], 0⟩ : ParseInput Nat).assert_next 5 "d").2.index = 0 + 1 ∧
    ∀ td, ([⟨5, ⟨0, 1⟩⟩] : List (TokenData Nat)).get? 0 = some td →
      (td.token = 5 →
        ((⟨⟨"f", "g"⟩, [⟨5, ⟨0, 1⟩⟩], 0⟩ : ParseInput Nat).assert_next 5 "d").1 = .ok td.span) ∧
      (td.token ≠ 5 →
        ∃ e, ((⟨⟨"f", "g"⟩, [⟨5, ⟨0, 1⟩⟩], 0⟩ : ParseInput Nat).assert_next 5 "d").1 = .error e) :=
  assert_next_consumes ⟨⟨"f", "g"⟩, [⟨5, ⟨0, 1⟩⟩], 0⟩ 5 "d" (by decide)

/-- C4 counterexample: on the one-token cursor `[5]` probed with `7`,
the mismatch error carries `none` — not `some 5`, the token that was at
the cursor position when `assert_next` was called — because the error
is built after the position has already advanced past the consumed
token. -/
theorem assert_next_error_token_cex :
    ((⟨⟨"f", "g"⟩, [⟨5, ⟨0, 1⟩⟩], 0⟩ : ParseInput Nat).assert_next 7 "d").1 =
      Except.error (.unexpectedToken "d" none) ∧
    (ParserError.unexpectedToken "d" none : ParserError Nat) ≠
      .unexpectedToken "d" (some 5) := by
  exact ⟨rfl, by decide⟩

/-- C4 amended: when `assert_next` fails on a mismatch, the
`UnexpectedToken` error carries the given description and the token at
the cursor's already-advanced position `index + 1` — the token after
the mismatching one — or `none` when the consumed token was the last. -/
theorem assert_next_mismatch_token {Token : Type} [DecidableEq Token]
    (s : ParseInput Token) (tok : Token) (d : String) (td : TokenData Token)
    (hget : s.tokens.get? s.index = some td) (hne : td.token ≠ tok) :
    (s.assert_next tok d).1 =
      .error (.unexpectedToken d ((s.tokens.get? (s.index + 1)).map (·.token))) := by
  unfold ParseInput.assert_next ParseInput.next ParseInput.unexpected_token
  rw [hget]
  simp [hne]

/-- Witness for the amended C4 on the cursor `[5, 9]` probed with `7`:
the error names the second token `9`, not the mismatching `5`. -/
theorem assert_next_mismatch_token_witness :
    ([⟨5, ⟨0, 1⟩⟩, ⟨9, ⟨1, 1⟩⟩] : List (TokenData Nat)).get? 0 = some ⟨5, ⟨0, 1⟩⟩ ∧
    (5 : Nat) ≠ 7 ∧
    ((⟨⟨"f", "g"⟩, [⟨5, ⟨0, 1⟩⟩, ⟨9, ⟨1, 1⟩⟩], 0⟩ : ParseInput Nat).assert_next 7 "d").1 =
      .error (.unexpectedToken "d"
        ((([⟨5, ⟨0, 1⟩⟩, ⟨9, ⟨1, 1⟩⟩] : List (TokenData Nat)).get? (0 + 1)).map (·.token))) :=
  ⟨rfl, by decide,
    assert_next_mismatch_token ⟨⟨"f", "g"⟩, [⟨5, ⟨0, 1⟩⟩, ⟨9, ⟨1, 1⟩⟩], 0⟩ 7 "d"
      ⟨5, ⟨0, 1⟩⟩ rfl (by decide)⟩

/-- C5: when the upcoming token differs from the probed one, `next_if`
returns `none` and leaves the cursor unchanged, so a subsequent `peek`
observes the very same token; when it matches, `next_if` consumes it
and returns its span. -/
theorem next_if_spec {Token : Type} [DecidableEq Token]
    (s : ParseInput Token) (tok : Token) (td : TokenData Token)
    (hget : s.tokens.get? s.index = some td) :
    (td.token ≠ tok →
      s.next_if tok = (none, s) ∧ (s.next_if tok).2.peek = Except.ok td) ∧
    (td.token = tok →
      s.next_if tok = (some td.span, { s with index := s.index + 1 })) := by
  constructor
  · intro hne
    have hres : s.next_if tok = (none, s) := by
      unfold ParseInput.next_if ParseInput.peek
      rw [hget]
      simp [hne]
    refine ⟨hres, ?_⟩
    rw [hres]
    unfold ParseInput.peek
    rw [hget]
  · intro heq
    unfold ParseInput.next_if ParseInput.peek ParseInput.next
    rw [hget]
    simp [heq]

/-- Witness for C5 on the cursor `[5]` probed with the non-matching
token `7` and with the matching token `5` via a second application of
the same fact shape at `td = (5, (0,1))`. -/
theorem next_if_spec_witness :
    (((5 : Nat) ≠ 7 →
      (⟨⟨"f", "g"⟩, [⟨5, ⟨0, 1⟩⟩], 0⟩ : ParseInput Nat).next_if 7 =
          (none, ⟨⟨"f", "g"⟩, [⟨5, ⟨0, 1⟩⟩], 0⟩) ∧
      ((⟨⟨"f", "g"⟩, [⟨5, ⟨0, 1⟩⟩], 0⟩ : ParseInput Nat).next_if 7).2.peek =
          Except.ok ⟨5, ⟨0, 1⟩⟩) ∧
    ((5 : Nat) = 7 →
      (⟨⟨"f", "g"⟩, [⟨5, ⟨0, 1⟩⟩], 0⟩ : ParseInput Nat).next_if 7 =
          (some (⟨0, 1⟩ : Span), ⟨⟨"f", "g"⟩, [⟨5, ⟨0, 1⟩⟩], 0 + 1⟩))) :=
  next_if_spec ⟨⟨"f", "g"⟩, [⟨5, ⟨0, 1⟩⟩], 0⟩ 7 ⟨5, ⟨0, 1⟩⟩ rfl

/-- C7 counterexample: for the cursor over an empty token sequence
whose position has moved to `1` (past the end, as repeated failed
`next` calls do), `has 0` is `false`, yet "at least `0` tokens remain
past the current position" holds vacuously — so `has n` is not
equivalent to "at least `n` tokens remain" for every cursor and every
`n`. -/
theorem has_iff_cex :
    ¬ (((⟨⟨"f", "g"⟩, [], 1⟩ : ParseInput Nat).has 0 = true) ↔
      (⟨⟨"f", "g"⟩, ([] : List (TokenData Nat)), 1⟩ : ParseInput Nat).tokens.length -
        (⟨⟨"f", "g"⟩, ([] : List (TokenData Nat)), 1⟩ : ParseInput Nat).index ≥ 0) := by
  decide

/-- C7 amended: for a cursor whose position has not moved past the end
(`index ≤ tokens.length`), `has n` is true exactly when at least `n`
tokens remain past the position; for a cursor that failed `next` calls
have pushed strictly past the end, `has m` is false for every `m`,
including `m = 0`.  Unconditionally, when `has n` holds `slice_next n`
returns exactly the next `n` tokens (the token at offset `i` of the
slice is the token at position `index + i`) and advances the position
by `n`, and when `has n` fails `slice_next n` fails with `EndOfInput`
leaving the position unchanged — the window is consumed atomically or
not at all. -/
theorem has_slice_next_spec {Token : Type} [DecidableEq Token]
    (s : ParseInput Token) (n : Nat) :
    (s.index ≤ s.tokens.length → (s.has n = true ↔ n ≤ s.tokens.length - s.index)) ∧
    (s.tokens.length < s.index → ∀ m, s.has m = false) ∧
    (s.has n = true →
      s.slice_next n =
        (.ok ((s.tokens.drop s.index).take n), { s with index := s.index + n }) ∧
      ((s.tokens.drop s.index).take n).length = n ∧
      ∀ i, i < n →
        ((s.tokens.drop s.index).take n).get? i = s.tokens.get? (s.index + i)) ∧
    (s.has n = false → s.slice_next n = (.error .endOfInput, s)) := by
  refine ⟨?_, ?_, ?_, ?_⟩
  · intro hle
    unfold ParseInput.has
    simp only [decide_eq_true_eq]
    omega
  · intro hgt m
    unfold ParseInput.has
    simp only [decide_eq_false_iff_not, not_le]
    omega
  · intro hh
    have hbound : s.index + n ≤ s.tokens.length := by
      unfold ParseInput.has at hh
      simpa using hh
    refine ⟨by unfold ParseInput.slice_next; rw [hh]; simp, ?_, ?_⟩
    · rw [List.length_take, List.length_drop]
      omega
    · intro i hi
      rw [List.get?_take hi, List.get?_drop]
  · intro hf
    unfold ParseInput.slice_next
    rw [hf]
    simp

/-- Witness for the amended C7: the theorem applied to the two-token
cursor `sample2` with `n = 1`. -/
theorem has_slice_next_spec_witness :
    ((sample2.index ≤ sample2.tokens.length →
      (sample2.has 1 = true ↔ 1 ≤ sample2.tokens.length - sample2.index)) ∧
    (sample2.tokens.length < sample2.index → ∀ m, sample2.has m = false) ∧
    (sample2.has 1 = true →
      sample2.slice_next 1 =
        (.ok ((sample2.tokens.drop sample2.index).take 1),
          { sample2 with index := sample2.index + 1 }) ∧
      ((sample2.tokens.drop sample2.index).take 1).length = 1 ∧
      ∀ i, i < 1 →
        ((sample2.tokens.drop sample2.index).take 1).get? i =
          sample2.tokens.get? (sample2.index + i)) ∧
    (sample2.has 1 = false → sample2.slice_next 1 = (.error .endOfInput, sample2))) :=
  has_slice_next_spec sample2 1

/-- C8 counterexample: at end of input (here the empty token sequence)
`unsupported_error` evaluates `self.tokens[self.index]` out of bounds;
in the embedding the panic is the `none` result, so the operation does
not return a `ParserError` value there. -/
theorem unsupported_error_cex :
    (⟨⟨"f", "g"⟩, ([] : List (TokenData Nat)), 0⟩ : ParseInput Nat).unsupported_error "feat" =
      none :=
  rfl

/-- C8 amended: `unexpected_token` returns an `UnexpectedToken` value
for every cursor state, including at or past the end of input; but
`unsupported_error` returns a `ParserError` value exactly when the
position is strictly within the token sequence — at or past the end it
indexes out of bounds and panics (modelled by `none`). -/
theorem error_values_spec {Token : Type} [DecidableEq Token]
    (s : ParseInput Token) (d f : String) :
    (∃ t, s.unexpected_token d = .unexpectedToken d t) ∧
    ((s.unsupported_error f).isSome ↔ s.index < s.tokens.length) := by
  refine ⟨⟨_, rfl⟩, ?_⟩
  unfold ParseInput.unsupported_error
  cases hget : s.tokens.get? s.index with
  | none =>
      simp only [Option.isSome_none, Bool.false_eq_true, false_iff, not_lt]
      exact List.get?_eq_none.mp hget
  | some td =>
      simp only [Option.isSome_some, true_iff]
      obtain ⟨hlt, -⟩ := List.get?_eq_some.mp hget
      exact hlt

/-- C10: once the position is at or past the end of the token
sequence, every `next` call fails with `EndOfInput` and still advances
the position by one, so after `k` failed calls the position is
`index + k`; `done` stays true and `has n` stays false for every
`n ≥ 1` throughout. -/
theorem next_past_end {Token : Type} [DecidableEq Token]
    (s : ParseInput Token) (h : s.done = true) : ∀ k : Nat,
    (nextIter k s).next = (.error .endOfInput, nextIter (k + 1) s) ∧
    (nextIter k s).index = s.index + k ∧
    (nextIter k s).done = true ∧
    ∀ n, 1 ≤ n → (nextIter k s).has n = false := by
  have hdone : s.tokens.length ≤ s.index := by
    unfold ParseInput.done at h
    simpa using h
  have hstate : ∀ k : Nat,
      (nextIter k s).tokens = s.tokens ∧ (nextIter k s).index = s.index + k := by
    intro k
    induction k with
    | zero => exact ⟨rfl, rfl⟩
    | succ k ih =>
        obtain ⟨h1, h2⟩ := ih
        rw [nextIter, next_snd]
        exact ⟨h1, by simp [h2, Nat.add_assoc]⟩
  intro k
  obtain ⟨htok, hidx⟩ := hstate k
  have hpast : (nextIter k s).tokens.length ≤ (nextIter k s).index := by
    rw [htok, hidx]
    omega
  have hget : (nextIter k s).tokens.get? (nextIter k s).index = none :=
    List.get?_eq_none.mpr hpast
  refine ⟨?_, hidx, ?_, ?_⟩
  · have e1 : nextIter (k + 1) s =
        { nextIter k s with index := (nextIter k s).index + 1 } := by
      rw [nextIter, next_snd]
    show ParseInput.next (nextIter k s) = _
    rw [e1]
    exact next_at_end (nextIter k s) hget
  · unfold ParseInput.done
    simp only [decide_eq_true_eq]
    omega
  · intro n hn
    unfold ParseInput.has
    simp only [decide_eq_false_iff_not, not_le]
    omega

/-- Witness for C10 at the empty-token cursor, `k = 2`, `n = 1`. -/
theorem next_past_end_witness :
    ((nextIter 2 (⟨⟨"f", "g"⟩, ([] : List (TokenData Nat)), 0⟩ : ParseInput Nat)).next =
      (.error .endOfInput,
        nextIter (2 + 1) (⟨⟨"f", "g"⟩, ([] : List (TokenData Nat)), 0⟩ : ParseInput Nat))) ∧
    (nextIter 2 (⟨⟨"f", "g"⟩, ([] : List (TokenData Nat)), 0⟩ : ParseInput Nat)).index = 0 + 2 ∧
    (nextIter 2 (⟨⟨"f", "g"⟩, ([] : List (TokenData Nat)), 0⟩ : ParseInput Nat)).done = true ∧
    ∀ n, 1 ≤ n →
      (nextIter 2 (⟨⟨"f", "g"⟩, ([] : List (TokenData Nat)), 0⟩ : ParseInput Nat)).has n = false :=
  next_past_end ⟨⟨"f", "g"⟩, ([] : List (TokenData Nat)), 0⟩ rfl 2

theorem nameIds_eq_range' {V S : Type} (ops : List (AllocOp V S)) :
    ∀ c : Component V S, nameIds c ops = List.range' c.names.length (countName ops) := by
  induction ops with
  | nil => intro c; rfl
  | cons op ops ih =>
      intro c
      cases op with
      | name nm sp =>
          rw [nameIds, countName, List.range'_succ, ih]
          have hlen : ((c.new_name nm sp).2).names.length = c.names.length + 1 := by
            simp [Component.new_name]
          rw [hlen]
          rfl
      | typ v sp =>
          rw [nameIds, countName, ih]
          have hlen : ((c.new_type v sp).2).names.length = c.names.length := rfl
          rw [hlen]
      | stmt st sp =>
          rw [nameIds, countName, ih]
          have hlen : ((c.new_statement st sp).2).names.length = c.names.length := rfl
          rw [hlen]

theorem typeIds_eq_range' {V S : Type} (ops : List (AllocOp V S)) :
    ∀ c : Component V S, typeIds c ops = List.range' c.types.length (countType ops) := by
  induction ops with
  | nil => intro c; rfl
  | cons op ops ih =>
      intro c
      cases op with
      | name nm sp =>
          rw [typeIds, countType, ih]
          have hlen : ((c.new_name nm sp).2).types.length = c.types.length := rfl
          rw [hlen]
      | typ v sp =>
          rw [typeIds, countType, List.range'_succ, ih]
          have hlen : ((c.new_type v sp).2).types.length = c.types.length + 1 := by
            simp [Component.new_type]
          rw [hlen]
          rfl
      | stmt st sp =>
          rw [typeIds, countType, ih]
          have hlen : ((c.new_statement st sp).2).types.length = c.types.length := rfl
          rw [hlen]

theorem stmtIds_eq_range' {V S : Type} (ops : List (AllocOp V S)) :
    ∀ c : Component V S, stmtIds c ops = List.range' c.statements.length (countStmt ops) := by
  induction ops with
  | nil => intro c; rfl
  | cons op ops ih =>
      intro c
      cases op with
      | name nm sp =>
          rw [stmtIds, countStmt, ih]
          have hlen : ((c.new_name nm sp).2).statements.length = c.statements.length := rfl
          rw [hlen]
      | typ v sp =>
          rw [stmtIds, countStmt, ih]
          have hlen : ((c.new_type v sp).2).statements.length = c.statements.length := rfl
          rw [hlen]
      | stmt st sp =>
          rw [stmtIds, countStmt, List.range'_succ, ih]
          have hlen : ((c.new_statement st sp).2).statements.length = c.statements.length + 1 := by
            simp [Component.new_statement]
          rw [hlen]
          rfl

theorem name_span_preserved {V S : Type} (ops : List (AllocOp V S)) :
    ∀ (c : Component V S) (id : NameId) (sp : Span),
      id < c.names.length → c.name_spans.lookup id = some sp →
      id < (allocRun c ops).names.length ∧
        (allocRun c ops).name_spans.lookup id = some sp := by
  induction ops with
  | nil => intro c id sp h1 h2; exact ⟨h1, h2⟩
  | cons op ops ih =>
      intro c id sp h1 h2
      rw [allocRun]
      cases op with
      | name nm spn =>
          apply ih
          · show id < (c.names ++ [nm]).length
            simpa using Nat.lt_succ_of_lt h1
          · show List.lookup id ((c.names.length, spn) :: c.name_spans) = some sp
            rw [List.lookup_cons]
            have hne : (id == c.names.length) = false :=
              beq_eq_false_iff_ne.mpr (Nat.ne_of_lt h1)
            rw [hne]
            exact h2
      | typ v spn => exact ih _ _ _ h1 h2
      | stmt st spn => exact ih _ _ _ h1 h2

theorem type_span_preserved {V S : Type} (ops : List (AllocOp V S)) :
    ∀ (c : Component V S) (id : TypeId) (sp : Span),
      id < c.types.length → c.type_spans.lookup id = some sp →
      id < (allocRun c ops).types.length ∧
        (allocRun c ops).type_spans.lookup id = some sp := by
  induction ops with
  | nil => intro c id sp h1 h2; exact ⟨h1, h2⟩
  | cons op ops ih =>
      intro c id sp h1 h2
      rw [allocRun]
      cases op with
      | name nm spn => exact ih _ _ _ h1 h2
      | typ v spn =>
          apply ih
          · show id < (c.types ++ [v]).length
            simpa using Nat.lt_succ_of_lt h1
          · show List.lookup id ((c.types.length, spn) :: c.type_spans) = some sp
            rw [List.lookup_cons]
            have hne : (id == c.types.length) = false :=
              beq_eq_false_iff_ne.mpr (Nat.ne_of_lt h1)
            rw [hne]
            exact h2
      | stmt st spn => exact ih _ _ _ h1 h2

theorem statement_span_preserved {V S : Type} (ops : List (AllocOp V S)) :
    ∀ (c : Component V S) (id : StatementId) (sp : Span),
      id < c.statements.length → c.statement_spans.lookup id = some sp →
      id < (allocRun c ops).statements.length ∧
        (allocRun c ops).statement_spans.lookup id = some sp := by
  induction ops with
  | nil => intro c id sp h1 h2; exact ⟨h1, h2⟩
  | cons op ops ih =>
      intro c id sp h1 h2
      rw [allocRun]
      cases op with
      | name nm spn => exact ih _ _ _ h1 h2
      | typ v spn => exact ih _ _ _ h1 h2
      | stmt st spn =>
          apply ih
          · show id < (c.statements ++ [st]).length
            simpa using Nat.lt_succ_of_lt h1
          · show List.lookup id ((c.statements.length, spn) :: c.statement_spans) = some sp
            rw [List.lookup_cons]
            have hne : (id == c.statements.length) = false :=
              beq_eq_false_iff_ne.mpr (Nat.ne_of_lt h1)
            rw [hne]
            exact h2

/-- C6: over any allocation history starting from the fresh arena, the
handles issued for each of the tables `names`, `types` and `statements`
are exactly `0, 1, 2, …` in issue order — so each allocation's handle
is strictly greater than every previously issued handle for that table,
handles start at zero, and none is ever reused — and the span recorded
by `new_name`/`new_type`/`new_statement` is still retrieved unchanged
by `name_span`/`type_span`/`statement_span` after any further
allocations. -/
theorem arena_handle_invariants {V S : Type} (src : Source)
    (ops more : List (AllocOp V S)) (nm : String) (v : V) (st : S) (sp : Span) :
    nameIds (Component.new src) ops = List.range (countName ops) ∧
    typeIds (Component.new src) ops = List.range (countType ops) ∧
    stmtIds (Component.new src) ops = List.range (countStmt ops) ∧
    (allocRun ((allocRun (Component.new src) ops).new_name nm sp).2 more).name_span
        ((allocRun (Component.new src) ops).new_name nm sp).1 = some sp ∧
    (allocRun ((allocRun (Component.new src) ops).new_type v sp).2 more).type_span
        ((allocRun (Component.new src) ops).new_type v sp).1 = some sp ∧
    (allocRun ((allocRun (Component.new src) ops).new_statement st sp).2 more).statement_span
        ((allocRun (Component.new src) ops).new_statement st sp).1 = some sp := by
  refine ⟨?_, ?_, ?_, ?_, ?_, ?_⟩
  · rw [nameIds_eq_range', List.range_eq_range']
    rfl
  · rw [typeIds_eq_range', List.range_eq_range']
    rfl
  · rw [stmtIds_eq_range', List.range_eq_range']
    rfl
  · set c := allocRun (Component.new src : Component V S) ops with hc
    have h := name_span_preserved more ((c.new_name nm sp).2) (c.new_name nm sp).1 sp ?_ ?_
    · exact h.2
    · show c.names.length < (c.names ++ [nm]).length
      simp
    · show List.lookup c.names.length ((c.names.length, sp) :: c.name_spans) = some sp
      rw [List.lookup_cons]
      rw [beq_self_eq_true]
  · set c := allocRun (Component.new src : Component V S) ops with hc
    have h := type_span_preserved more ((c.new_type v sp).2) (c.new_type v sp).1 sp ?_ ?_
    · exact h.2
    · show c.types.length < (c.types ++ [v]).length
      simp
    · show List.lookup c.types.length ((c.types.length, sp) :: c.type_spans) = some sp
      rw [List.lookup_cons]
      rw [beq_self_eq_true]
  · set c := allocRun (Component.new src : Component V S) ops with hc
    have h := statement_span_preserved more ((c.new_statement st sp).2) (c.new_statement st sp).1 sp ?_ ?_
    · exact h.2
    · show c.statements.length < (c.statements ++ [st]).length
      simp
    · show List.lookup c.statements.length ((c.statements.length, sp) :: c.statement_spans) = some sp
      rw [List.lookup_cons]
      rw [beq_self_eq_true]

/-- C9: `parse` builds the cursor from the given source and token
sequence and hands it to the module production, a pure function, so two
runs on identical inputs yield the same outcome — the same error, or
modules that are structurally identical. -/
theorem parse_deterministic {Token Module : Type}
    (parse_module : ParseInput Token → Except (ParserError Token) Module)
    (src : Source) (tokens : List (TokenData Token)) :
    parse parse_module src tokens = parse parse_module src tokens ∧
    ∀ m1 m2, parse parse_module src tokens = .ok m1 →
      parse parse_module src tokens = .ok m2 → m1 = m2 := by
  refine ⟨rfl, ?_⟩
  intro m1 m2 h1 h2
  rw [h1] at h2
  exact (Except.ok.injEq .. ▸ h2 :)

end Wrought
